import Mathlib

/-!
Verification of the auto-doc-generator extension (`src/extension.ts`).

The source is embedded shallowly: a line of text is a `List Char` (written
`Str` below), a text buffer is a `List Str` of its lines, and the JavaScript
string operations used by the source (`match` against the fixed regexes,
`split`, `trim`, `includes`, `replace`) are implemented as executable Lean
functions with the same semantics on these representations.
-/

/-- A line (or fragment) of text: a list of characters. -/
abbrev Str := List Char

/-- The character class of JavaScript `\s` (also the class trimmed by
`String.prototype.trim`): ASCII whitespace plus the Unicode space
separators, line separators and the BOM. -/
def jsSpace (c : Char) : Bool :=
  c = ' ' || c = '\t' || c = '\n' || c = '\x0b' || c = '\x0c' || c = '\r' ||
  c = '\u00A0' || c = '\u1680' || ('\u2000' ≤ c && c ≤ '\u200A') ||
  c = '\u2028' || c = '\u2029' || c = '\u202F' || c = '\u205F' ||
  c = '\u3000' || c = '\uFEFF'

/-- The character class of JavaScript `\w`: ASCII letters, digits and
underscore. -/
def wordChar (c : Char) : Bool :=
  c.isAlpha || c.isDigit || c = '_'

/-- `startsWith pat s` holds when `pat` is a leading run of `s`
(JavaScript regex literal matching at the current position). -/
def startsWith : Str → Str → Bool
  | [], _ => true
  | _ :: _, [] => false
  | a :: as, b :: bs => a = b && startsWith as bs

/-- `containsSub pat s` is JavaScript `s.includes(pat)`: `pat` occurs as a
contiguous run somewhere in `s`. -/
def containsSub (pat : Str) : Str → Bool
  | [] => pat.isEmpty
  | c :: rest => startsWith pat (c :: rest) || containsSub pat rest

/-- `splitOnChar sep s` is JavaScript `s.split(sep)` for a one-character
separator: the (always nonempty) list of maximal separator-free pieces. -/
def splitOnChar (sep : Char) : Str → List Str
  | [] => [[]]
  | c :: rest =>
    if c = sep then [] :: splitOnChar sep rest
    else
      match splitOnChar sep rest with
      | [] => [[c]]
      | h :: t => (c :: h) :: t

/-- `joinWith sep pieces` is JavaScript `pieces.join(sep)`. -/
def joinWith (sep : Str) : List Str → Str
  | [] => []
  | [x] => x
  | x :: y :: rest => x ++ sep ++ joinWith sep (y :: rest)

/-- JavaScript `s.trim()`: strip leading and trailing `jsSpace` characters. -/
def jsTrim (s : Str) : Str :=
  ((s.dropWhile jsSpace).reverse.dropWhile jsSpace).reverse

/-- The record returned by `parseFunctionOrClass` in the source:
`{ type, name, params }`, with `type` one of the strings
`"function"` / `"class"`. -/
structure Parsed where
  type : Str
  name : Str
  params : List Str
deriving DecidableEq

/-- Matching a line against `/^\s*<kw>\s+(\w+)\s*\(([^)]*)\)/` for the fixed
keyword `kw` (`def` or `function`): on success, the captured name and the
raw text of the parameter list.  The regex pieces are translated one by one:
`^\s*` skips leading whitespace, the literal keyword must follow, `\s+`
demands at least one whitespace character, `(\w+)` captures a maximal
nonempty word, `\s*` skips whitespace, then a literal `(`, then `([^)]*)`
captures the maximal run free of `)`, which must be closed by `)`.
Each greedy piece is followed by a piece that cannot match the same
characters, so maximal munch is exactly the regex semantics. -/
def matchFuncRegex (kw line : Str) : Option (Str × Str) :=
  let s := line.dropWhile jsSpace
  if startsWith kw s then
    let s1 := s.drop kw.length
    match s1 with
    | [] => none
    | c :: _ =>
      if jsSpace c then
        let s2 := s1.dropWhile jsSpace
        let name := s2.takeWhile wordChar
        if name = [] then none
        else
          let s3 := (s2.drop name.length).dropWhile jsSpace
          match s3 with
          | '(' :: s4 =>
            let raw := s4.takeWhile (fun d => d != ')')
            if s4.drop raw.length = [] then none else some (name, raw)
          | _ => none
      else none
  else none

/-- Matching a line against `/^\s*class\s+(\w+)/`: the captured class name. -/
def matchClassRegex (line : Str) : Option Str :=
  let s := line.dropWhile jsSpace
  if startsWith "class".toList s then
    let s1 := s.drop ("class".toList).length
    match s1 with
    | [] => none
    | c :: _ =>
      if jsSpace c then
        let name := (s1.dropWhile jsSpace).takeWhile wordChar
        if name = [] then none else some name
      else none
  else none

/-- The function-declaration keyword chosen in `parseFunctionOrClass`:
`def` when the language id is `python`, `function` for every other id. -/
def kwFor (language : Str) : Str :=
  if language = "python".toList then "def".toList else "function".toList

/-- `matchFunc[2].split(',').map(p => p.trim()).filter(p => p.length > 0)`. -/
def parseParams (raw : Str) : List Str :=
  ((splitOnChar ',' raw).map jsTrim).filter (fun p => p ≠ [])

/-- `parseFunctionOrClass` from the source: try the function regex of the
language family first, then the class regex, else `none`. -/
def parseFunctionOrClass (line language : Str) : Option Parsed :=
  match matchFuncRegex (kwFor language) line with
  | some r => some ⟨"function".toList, r.1, parseParams r.2⟩
  | none =>
    match matchClassRegex line with
    | some n => some ⟨"class".toList, n, []⟩
    | none => none

/-- `generateDocstring` from the source: the rendered template for a
language id, name and parameter list; empty for unrecognized language ids. -/
def generateDocstring (language name : Str) (params : List Str) : Str :=
  if language = "python".toList then
    "\"\"\"".toList ++ name ++ " description.\n\n".toList ++
      joinWith "\n".toList
        (params.map fun p => ":param ".toList ++ p ++ ": DESCRIPTION".toList) ++
      (if params.length = 0 then [] else "\n".toList) ++
      ":return: DESCRIPTION\n\"\"\"".toList
  else if language = "javascript".toList ∨ language = "typescript".toList then
    "/**\n * ".toList ++ name ++ " description.\n".toList ++
      joinWith "\n".toList
        (params.map fun p => " * @param {any} ".toList ++ p ++ " DESCRIPTION".toList) ++
      (if params.length = 0 then [] else "\n".toList) ++
      " * @returns {any} DESCRIPTION\n */".toList
  else []

/-- `lineText.match(/^(\s*)/)[1]`: the maximal leading whitespace run of a
line. -/
def leadingIndent (line : Str) : Str :=
  line.takeWhile jsSpace

/-- `docstring.replace(/\n/g, "\n" + indent)`: put `indent` after every
newline of the template. -/
def replaceNewlines (indent : Str) : Str → Str
  | [] => []
  | c :: rest =>
    if c = '\n' then '\n' :: (indent ++ replaceNewlines indent rest)
    else c :: replaceNewlines indent rest

/-- `document.lineAt(i).text` on the line-list model of a buffer. -/
def lineAt (buf : List Str) (i : Nat) : Str :=
  buf.getD i []

/-- The full text handed to `editBuilder.insert` in `insertDocstringAtLine`:
`indent + docstring.replace(/\n/g, "\n" + indent) + "\n"`. -/
def insertedText (indent docstring : Str) : Str :=
  indent ++ replaceNewlines indent docstring ++ ['\n']

/-- `editBuilder.insert(new Position(i, 0), text)` on the line-list model:
the text is spliced in immediately before column 0 of line `i`, so all its
complete lines become new lines and its final newline-free tail is prefixed
to the old line `i`. -/
def insertTextAt (buf : List Str) (i : Nat) (text : Str) : List Str :=
  buf.take i ++ (splitOnChar '\n' text).dropLast ++
    [((splitOnChar '\n' text).getLast?).getD [] ++ lineAt buf i] ++
    buf.drop (i + 1)

/-- `insertDocstringAtLine` from the source: read the target line's leading
whitespace, re-indent the docstring, and insert it (plus one trailing
newline) at column 0 of the target line. -/
def insertDocstringAtLine (buf : List Str) (i : Nat) (docstring : Str) : List Str :=
  insertTextAt buf i (insertedText (leadingIndent (lineAt buf i)) docstring)

/-- `checkLine.includes('"""') || checkLine.includes('/**')`: the existing
documentation marker test the source applies to one line. -/
def hasDocMarker (line : Str) : Bool :=
  containsSub "\"\"\"".toList line || containsSub "/**".toList line

/-- The `hasDocstring` loop of `generateDocstringsForFile`: for
`i ∈ {0, 1, 2}`, when `lineNumber - i ≥ 0`, test line `lineNumber - i`
for either marker. -/
def hasDocstring (buf : List Str) (lineNumber : Nat) : Bool :=
  (List.range 3).any fun i =>
    decide (i ≤ lineNumber) && hasDocMarker (lineAt buf (lineNumber - i))

/-- One iteration of the loop body of `generateDocstringsForFile` at loop
index `i`: parse the (live) line, skip when no declaration or when the
marker check fires, otherwise render and insert the docstring. -/
def processLine (language : Str) (buf : List Str) (i : Nat) : List Str :=
  match parseFunctionOrClass (lineAt buf i) language with
  | none => buf
  | some p =>
    if hasDocstring buf i then buf
    else insertDocstringAtLine buf i (generateDocstring language p.name p.params)

/-- `runAux language k i buf` runs the loop body for loop indices
`i, i+1, ..., i+k-1` on the live buffer. -/
def runAux (language : Str) : Nat → Nat → List Str → List Str
  | 0, _, buf => buf
  | k + 1, i, buf => runAux language k (i + 1) (processLine language buf i)

/-- `generateDocstringsForFile` from the source: the line count is read
once before any edit, and the loop then runs over loop indices
`0 .. totalLines - 1`, reading and editing the live buffer. -/
def generateDocstringsForFile (language : Str) (buf : List Str) : List Str :=
  runAux language buf.length 0 buf

/-! ### Helper lemmas about the string operations -/

theorem startsWith_self_append (p t : Str) : startsWith p (p ++ t) = true := by
  induction p with
  | nil => rfl
  | cons a as ih => simp [startsWith, ih]

theorem containsSub_of_decomp (p a b : Str) : containsSub p (a ++ p ++ b) = true := by
  induction a with
  | nil =>
    cases hp : p ++ b with
    | nil =>
      rcases List.append_eq_nil.mp hp with ⟨h1, h2⟩
      subst h1; subst h2
      rfl
    | cons c rest =>
      simp only [List.nil_append]
      rw [hp, containsSub, ← hp, startsWith_self_append]
      simp
  | cons c rest ih =>
    simp only [List.cons_append, containsSub, List.append_assoc] at ih ⊢
    simp [ih]

theorem splitOnChar_ne_nil (sep : Char) (s : Str) : splitOnChar sep s ≠ [] := by
  induction s with
  | nil => simp [splitOnChar]
  | cons c rest ih =>
    rw [splitOnChar]
    split
    · simp
    · cases h : splitOnChar sep rest with
      | nil => exact absurd h ih
      | cons a b => simp

theorem exists_splitOnChar_cons (sep : Char) (s : Str) :
    ∃ h t, splitOnChar sep s = h :: t := by
  cases hs : splitOnChar sep s with
  | nil => exact absurd hs (splitOnChar_ne_nil sep s)
  | cons a b => exact ⟨a, b, rfl⟩

theorem splitOnChar_cons_sep (sep : Char) (s : Str) :
    splitOnChar sep (sep :: s) = [] :: splitOnChar sep s := by
  rw [splitOnChar]
  simp

theorem splitOnChar_cons_of_ne (sep c : Char) (s h : Str) (t : List Str)
    (hc : c ≠ sep) (hs : splitOnChar sep s = h :: t) :
    splitOnChar sep (c :: s) = (c :: h) :: t := by
  rw [splitOnChar, if_neg hc, hs]

theorem splitOnChar_append_cons (sep : Char) (x y : Str) :
    splitOnChar sep (x ++ sep :: y) = splitOnChar sep x ++ splitOnChar sep y := by
  induction x with
  | nil => simp [splitOnChar_cons_sep, splitOnChar]
  | cons c rest ih =>
    by_cases hc : c = sep
    · subst hc
      rw [List.cons_append, splitOnChar_cons_sep, splitOnChar_cons_sep, ih,
        List.cons_append]
    · obtain ⟨h, t, hs⟩ := exists_splitOnChar_cons sep rest
      rw [List.cons_append,
        splitOnChar_cons_of_ne sep c _ _ _ hc (by rw [ih, hs]; rfl),
        splitOnChar_cons_of_ne sep c _ _ _ hc hs, List.cons_append]
      rfl

theorem splitOnChar_of_not_mem (sep : Char) (s : Str) (h : sep ∉ s) :
    splitOnChar sep s = [s] := by
  induction s with
  | nil => rfl
  | cons c rest ih =>
    have hc : c ≠ sep := fun he => h (he ▸ List.mem_cons_self c rest)
    have hr : sep ∉ rest := fun hm => h (List.mem_cons_of_mem c hm)
    rw [splitOnChar_cons_of_ne sep c rest rest [] hc (ih hr)]

theorem splitOnChar_concat_sep (sep : Char) (x : Str) :
    splitOnChar sep (x ++ [sep]) = splitOnChar sep x ++ [[]] := by
  have := splitOnChar_append_cons sep x []
  simpa [splitOnChar] using this

theorem length_splitOnChar (sep : Char) (s : Str) :
    (splitOnChar sep s).length = s.count sep + 1 := by
  induction s with
  | nil => simp [splitOnChar]
  | cons c rest ih =>
    by_cases hc : c = sep
    · subst hc
      rw [splitOnChar_cons_sep]
      simp [ih, List.count_cons]
    · obtain ⟨h, t, hs⟩ := exists_splitOnChar_cons sep rest
      rw [splitOnChar_cons_of_ne sep c rest h t hc hs]
      have := ih
      rw [hs] at this
      simpa [List.count_cons, hc] using this

theorem splitOnChar_append_left (sep : Char) (a b h : Str) (t : List Str)
    (ha : sep ∉ a) (hb : splitOnChar sep b = h :: t) :
    splitOnChar sep (a ++ b) = (a ++ h) :: t := by
  induction a with
  | nil => simpa using hb
  | cons c rest ih =>
    have hc : c ≠ sep := fun he => ha (he ▸ List.mem_cons_self c rest)
    have hr : sep ∉ rest := fun hm => ha (List.mem_cons_of_mem c hm)
    rw [List.cons_append, splitOnChar_cons_of_ne sep c _ _ _ hc (ih hr),
      List.cons_append]

theorem replaceNewlines_cons_nl (indent rest : Str) :
    replaceNewlines indent ('\n' :: rest) =
      '\n' :: (indent ++ replaceNewlines indent rest) := by
  rw [replaceNewlines]
  simp

theorem replaceNewlines_cons_ne (indent : Str) (c : Char) (rest : Str)
    (hc : c ≠ '\n') :
    replaceNewlines indent (c :: rest) = c :: replaceNewlines indent rest := by
  rw [replaceNewlines, if_neg hc]

theorem splitOnChar_replaceNewlines (indent : Str) (s h : Str) (t : List Str)
    (hind : '\n' ∉ indent) (hs : splitOnChar '\n' s = h :: t) :
    splitOnChar '\n' (replaceNewlines indent s) =
      h :: t.map (fun l => indent ++ l) := by
  induction s generalizing h t with
  | nil =>
    rw [splitOnChar] at hs
    cases hs
    rfl
  | cons c rest ih =>
    by_cases hc : c = '\n'
    · subst hc
      rw [splitOnChar_cons_sep] at hs
      obtain ⟨h', t', hr⟩ := exists_splitOnChar_cons '\n' rest
      rw [hr] at hs
      cases hs
      rw [replaceNewlines_cons_nl, splitOnChar_cons_sep,
        splitOnChar_append_left '\n' indent _ _ _ hind (ih h' t' hr)]
      simp
    · obtain ⟨h', t', hr⟩ := exists_splitOnChar_cons '\n' rest
      rw [splitOnChar_cons_of_ne '\n' c rest h' t' hc hr] at hs
      cases hs
      rw [replaceNewlines_cons_ne indent c rest hc,
        splitOnChar_cons_of_ne '\n' c _ _ _ hc (ih h' t hr)]

theorem splitOnChar_reindent (indent s : Str) (hind : '\n' ∉ indent) :
    splitOnChar '\n' (indent ++ replaceNewlines indent s) =
      (splitOnChar '\n' s).map (fun l => indent ++ l) := by
  obtain ⟨h, t, hs⟩ := exists_splitOnChar_cons '\n' s
  rw [hs, List.map_cons,
    splitOnChar_append_left '\n' indent _ _ _ hind
      (splitOnChar_replaceNewlines indent s h t hind hs)]

theorem count_replaceNewlines (indent s : Str) (hind : '\n' ∉ indent) :
    (replaceNewlines indent s).count '\n' = s.count '\n' := by
  induction s with
  | nil => rfl
  | cons c rest ih =>
    by_cases hc : c = '\n'
    · subst hc
      rw [replaceNewlines_cons_nl, List.count_cons, List.count_append, ih,
        List.count_eq_zero.mpr hind, List.count_cons]
      simp
    · rw [replaceNewlines_cons_ne indent c rest hc, List.count_cons,
        List.count_cons, ih]

/-! ### Helper lemmas about the buffer model -/

theorem lineAt_of_length_le (buf : List Str) (i : Nat) (h : buf.length ≤ i) :
    lineAt buf i = [] := by
  unfold lineAt
  rw [List.getD_eq_default]
  exact h

theorem lineAt_append_right (a b : List Str) (k : Nat) :
    lineAt (a ++ b) (a.length + k) = lineAt b k := by
  induction a with
  | nil => simp [lineAt]
  | cons x rest ih =>
    have h1 : (x :: rest).length + k = rest.length + k + 1 := by
      simp [List.length_cons]
      omega
    rw [h1, List.cons_append]
    unfold lineAt
    rw [List.getD_cons_succ]
    exact ih

theorem lineAt_append_left (a b : List Str) (k : Nat) (h : k < a.length) :
    lineAt (a ++ b) k = lineAt a k := by
  unfold lineAt
  rw [List.getD_append _ _ _ _ h]

/-- The inserted block of `insertDocstringAtLine`, as a list of lines:
the re-indented template split at its newlines. -/
def insertedBlock (indent docstring : Str) : List Str :=
  splitOnChar '\n' (indent ++ replaceNewlines indent docstring)

theorem insertedBlock_ne_nil (indent docstring : Str) :
    insertedBlock indent docstring ≠ [] :=
  splitOnChar_ne_nil '\n' _

theorem insertDocstringAtLine_eq (buf : List Str) (i : Nat) (docstring : Str) :
    insertDocstringAtLine buf i docstring =
      buf.take i ++ insertedBlock (leadingIndent (lineAt buf i)) docstring ++
        [lineAt buf i] ++ buf.drop (i + 1) := by
  unfold insertDocstringAtLine insertTextAt insertedText insertedBlock
  have h1 :
      leadingIndent (lineAt buf i) ++
          replaceNewlines (leadingIndent (lineAt buf i)) docstring ++ ['\n'] =
        (leadingIndent (lineAt buf i) ++
          replaceNewlines (leadingIndent (lineAt buf i)) docstring) ++ ['\n'] := by
    rw [List.append_assoc]
  rw [h1, splitOnChar_concat_sep, List.dropLast_concat, List.getLast?_concat]
  rfl

theorem length_insertDocstringAtLine (buf : List Str) (i : Nat) (docstring : Str)
    (hi : i < buf.length) :
    (insertDocstringAtLine buf i docstring).length =
      buf.length + (insertedBlock (leadingIndent (lineAt buf i)) docstring).length := by
  rw [insertDocstringAtLine_eq]
  simp only [List.length_append, List.length_take, List.length_drop,
    List.length_cons, List.length_nil]
  omega

theorem insertDocstringAtLine_ne_self (buf : List Str) (i : Nat) (docstring : Str)
    (hi : i < buf.length) :
    insertDocstringAtLine buf i docstring ≠ buf := by
  intro he
  have hl := length_insertDocstringAtLine buf i docstring hi
  rw [he] at hl
  have hb := insertedBlock_ne_nil (leadingIndent (lineAt buf i)) docstring
  have : (insertedBlock (leadingIndent (lineAt buf i)) docstring).length ≠ 0 :=
    fun h0 => hb (List.length_eq_zero.mp h0)
  omega

/-! ### Helper lemmas about the declaration matcher -/

theorem kwFor_ne_nil (language : Str) : kwFor language ≠ [] := by
  unfold kwFor
  split <;> decide

theorem matchFuncRegex_nil (kw : Str) (h : kw ≠ []) :
    matchFuncRegex kw [] = none := by
  cases kw with
  | nil => exact absurd rfl h
  | cons c rest => rfl

theorem parseFunctionOrClass_nil (language : Str) :
    parseFunctionOrClass [] language = none := by
  unfold parseFunctionOrClass
  rw [matchFuncRegex_nil _ (kwFor_ne_nil language)]
  rfl

theorem lt_length_of_parse_some (buf : List Str) (i : Nat) (language : Str)
    (p : Parsed) (h : parseFunctionOrClass (lineAt buf i) language = some p) :
    i < buf.length := by
  by_contra hle
  rw [lineAt_of_length_le buf i (Nat.le_of_not_lt hle),
    parseFunctionOrClass_nil] at h
  exact Option.noConfusion h

/-! ### Helper lemmas about the orchestration loop step -/

theorem hasDocstring_eq_window (buf : List Str) (i : Nat) :
    hasDocstring buf i =
      (hasDocMarker (lineAt buf i) ||
       (decide (1 ≤ i) && hasDocMarker (lineAt buf (i - 1))) ||
       (decide (2 ≤ i) && hasDocMarker (lineAt buf (i - 2)))) := by
  unfold hasDocstring
  rw [show List.range 3 = [0, 1, 2] from rfl]
  simp [List.any_cons, Bool.or_assoc]

theorem processLine_of_parse_none (language : Str) (buf : List Str) (i : Nat)
    (h : parseFunctionOrClass (lineAt buf i) language = none) :
    processLine language buf i = buf := by
  unfold processLine
  rw [h]

theorem processLine_of_marker (language : Str) (buf : List Str) (i : Nat)
    (p : Parsed) (hp : parseFunctionOrClass (lineAt buf i) language = some p)
    (hm : hasDocstring buf i = true) :
    processLine language buf i = buf := by
  unfold processLine
  rw [hp]
  simp [hm]

theorem processLine_of_insert (language : Str) (buf : List Str) (i : Nat)
    (p : Parsed) (hp : parseFunctionOrClass (lineAt buf i) language = some p)
    (hm : hasDocstring buf i = false) :
    processLine language buf i =
      insertDocstringAtLine buf i
        (generateDocstring language p.name p.params) := by
  unfold processLine
  rw [hp]
  simp [hm]







/-! ### Claim theorems -/

/-- Claim C5: for Family A, the line `def greet(name, age):` is matched as a
function declaration named `greet` with parameters `name` and `age`, and the
rendered template is exactly the stated triple-quoted string. -/
theorem claim_c5_parse_and_render :
    parseFunctionOrClass "def greet(name, age):".toList "python".toList =
      some ⟨"function".toList, "greet".toList,
        ["name".toList, "age".toList]⟩ ∧
    generateDocstring "python".toList "greet".toList
        ["name".toList, "age".toList] =
      ("\"\"\"greet description.\n\n:param name: DESCRIPTION\n:param age: DESCRIPTION\n:return: DESCRIPTION\n\"\"\"").toList := by
  decide

/-- Claim C6: for Family B, the line `function add(a, b) {` is matched as a
function declaration named `add` with parameters `a` and `b`, and the
rendered template is exactly the stated block-comment string. -/
theorem claim_c6_parse_and_render :
    parseFunctionOrClass "function add(a, b) \x7b".toList "javascript".toList =
      some ⟨"function".toList, "add".toList, ["a".toList, "b".toList]⟩ ∧
    generateDocstring "javascript".toList "add".toList
        ["a".toList, "b".toList] =
      ("/**\n * add description.\n * @param {any} a DESCRIPTION\n * @param {any} b DESCRIPTION\n * @returns {any} DESCRIPTION\n */").toList := by
  decide

/-- Claim C3 counterexample: the template rendered for the zero-parameter
Family A function `run` consists of the description line, a blank line, the
return line and the closing quote — the blank line after the description
never collapses, so the description line is not followed directly by the
return line. -/
theorem claim_c3_counterexample :
    splitOnChar '\n' (generateDocstring "python".toList "run".toList []) =
      ["\"\"\"run description.".toList, [], ":return: DESCRIPTION".toList,
        "\"\"\"".toList] ∧
    generateDocstring "python".toList "run".toList [] ≠
      ("\"\"\"run description.\n:return: DESCRIPTION\n\"\"\"").toList := by
  decide

/-- Claim C3 (amended): for Family A with an empty parameter list no
`:param` line and no separator newline for the parameter block are
rendered, but the blank line between the description line and the return
line remains in the template. -/
theorem claim_c3_amended (name : Str) :
    generateDocstring "python".toList name [] =
      "\"\"\"".toList ++ name ++
        " description.\n\n:return: DESCRIPTION\n\"\"\"".toList := by
  unfold generateDocstring
  rw [if_pos rfl]
  rw [show (" description.\n\n:return: DESCRIPTION\n\"\"\"".toList : Str) =
      " description.\n\n".toList ++ ":return: DESCRIPTION\n\"\"\"".toList
    from by decide]
  simp [joinWith]

/-- Claim C4 counterexample: on a buffer whose language id is `ruby`
(outside both recognized families) containing the single declaration line
`class Foo`, the run does not leave the buffer unchanged. -/
theorem claim_c4_counterexample :
    generateDocstringsForFile "ruby".toList ["class Foo".toList] ≠
      ["class Foo".toList] := by
  decide

/-- Claim C4 (amended): the Template Builder returns the empty string for
every language id outside the two recognized families, but the orchestration
loop does not treat the empty template as "nothing to insert": it still
calls the Insertion Applier, which inserts one line (the declaration's
leading whitespace, from the appended trailing line break) above each
matched declaration, changing the buffer. -/
theorem claim_c4_amended :
    (∀ language name params, language ≠ "python".toList →
      language ≠ "javascript".toList → language ≠ "typescript".toList →
      generateDocstring language name params = []) ∧
    generateDocstringsForFile "ruby".toList ["  class Foo".toList] =
      ["  ".toList, "  class Foo".toList] := by
  constructor
  · intro language name params h1 h2 h3
    unfold generateDocstring
    rw [if_neg h1, if_neg (fun hor => hor.elim h2 h3)]
  · decide

/-- Claim C4 witness: the amended claim instantiated at the language id
`ruby`. -/
theorem claim_c4_witness :
    generateDocstring "ruby".toList "f".toList [] = [] :=
  claim_c4_amended.1 "ruby".toList "f".toList [] (by decide) (by decide)
    (by decide)

/-- Claim C9: a line matching neither the function regex of its language
family nor the class regex parses to "no declaration here" (`none`), and
the loop step for that line performs no insertion at all: the buffer is
returned unchanged. -/
theorem claim_c9_no_false_positive (language : Str) (buf : List Str) (i : Nat)
    (hf : matchFuncRegex (kwFor language) (lineAt buf i) = none)
    (hc : matchClassRegex (lineAt buf i) = none) :
    parseFunctionOrClass (lineAt buf i) language = none ∧
    processLine language buf i = buf := by
  have hp : parseFunctionOrClass (lineAt buf i) language = none := by
    unfold parseFunctionOrClass
    rw [hf, hc]
  exact ⟨hp, processLine_of_parse_none language buf i hp⟩

/-- Claim C9 witness: the plain python line `x = 1` matches neither regex,
parses to `none`, and its loop step leaves the buffer unchanged. -/
theorem claim_c9_witness :
    parseFunctionOrClass (lineAt ["x = 1".toList] 0) "python".toList = none ∧
    processLine "python".toList ["x = 1".toList] 0 = ["x = 1".toList] :=
  claim_c9_no_false_positive "python".toList ["x = 1".toList] 0 (by decide)
    (by decide)

/-- Claim C10: every language id other than `python` is matched with the
Family B regexes — the matcher never rejects a buffer for its language — and
a declaration matched in such a buffer whose marker check fails always
reaches the template/insertion step, which changes the buffer. -/
theorem claim_c10_non_python_family_b (language : Str)
    (hne : language ≠ "python".toList) :
    (∀ line, parseFunctionOrClass line language =
      parseFunctionOrClass line "javascript".toList) ∧
    (∀ buf i p, parseFunctionOrClass (lineAt buf i) language = some p →
      hasDocstring buf i = false → processLine language buf i ≠ buf) := by
  constructor
  · intro line
    unfold parseFunctionOrClass
    rw [show kwFor language = kwFor "javascript".toList from by
      unfold kwFor
      rw [if_neg hne, if_neg (by decide)]]
  · intro buf i p hp hm
    rw [processLine_of_insert language buf i p hp hm]
    exact insertDocstringAtLine_ne_self buf i _
      (lt_length_of_parse_some buf i language p hp)

/-- Claim C10 witness: with language id `ruby`, the line `function f(x)` is
parsed exactly as in a javascript buffer, and its loop step inserts. -/
theorem claim_c10_witness :
    parseFunctionOrClass "function f(x)".toList "ruby".toList =
      parseFunctionOrClass "function f(x)".toList "javascript".toList ∧
    processLine "ruby".toList ["function f(x)".toList] 0 ≠
      ["function f(x)".toList] :=
  ⟨(claim_c10_non_python_family_b "ruby".toList (by decide)).1
      "function f(x)".toList,
   (claim_c10_non_python_family_b "ruby".toList (by decide)).2
      ["function f(x)".toList] 0
      ⟨"function".toList, "f".toList, ["x".toList]⟩ (by decide) (by decide)⟩

/-- A buffer line (which never contains a line break) has a line-break-free
leading whitespace run. -/
theorem not_newline_mem_leadingIndent (line : Str) (h : '\n' ∉ line) :
    '\n' ∉ leadingIndent line :=
  fun hm => h ((List.takeWhile_sublist jsSpace).subset hm)

/-- Claim C1 counterexample: in a Family A (python) buffer the line
`def f():` at index 1 is a matched declaration and neither it nor its only
preceding line contains the family's triple-quote marker, yet the run
performs no insertion, because the check also accepts the Family B marker
`/**` found in the preceding line. -/
theorem claim_c1_counterexample :
    parseFunctionOrClass "def f():".toList "python".toList =
      some ⟨"function".toList, "f".toList, []⟩ ∧
    containsSub "\"\"\"".toList "x /** y".toList = false ∧
    containsSub "\"\"\"".toList "def f():".toList = false ∧
    generateDocstringsForFile "python".toList
        ["x /** y".toList, "def f():".toList] =
      ["x /** y".toList, "def f():".toList] := by
  decide

/-- Claim C1 (amended): for a declaration matched at line `i`, the
existing-documentation check inspects line `i` itself and the up to two
lines preceding it, and looks for both doc markers (the triple-quote token
and the block-comment-open token) regardless of the language family;
insertion is skipped if and only if one of those lines contains one of the
two markers. -/
theorem claim_c1_amended (language : Str) (buf : List Str) (i : Nat)
    (p : Parsed)
    (hp : parseFunctionOrClass (lineAt buf i) language = some p) :
    processLine language buf i = buf ↔
      (hasDocMarker (lineAt buf i) = true ∨
       (1 ≤ i ∧ hasDocMarker (lineAt buf (i - 1)) = true) ∨
       (2 ≤ i ∧ hasDocMarker (lineAt buf (i - 2)) = true)) := by
  have hwin : hasDocstring buf i = true ↔
      (hasDocMarker (lineAt buf i) = true ∨
       (1 ≤ i ∧ hasDocMarker (lineAt buf (i - 1)) = true) ∨
       (2 ≤ i ∧ hasDocMarker (lineAt buf (i - 2)) = true)) := by
    rw [hasDocstring_eq_window]
    simp [Bool.or_eq_true, Bool.and_eq_true, or_assoc]
  constructor
  · intro he
    by_contra hn
    have hm : hasDocstring buf i = false := by
      cases hb : hasDocstring buf i with
      | false => rfl
      | true => exact absurd (hwin.mp hb) hn
    rw [processLine_of_insert language buf i p hp hm] at he
    exact insertDocstringAtLine_ne_self buf i _
      (lt_length_of_parse_some buf i language p hp) he
  · intro hw
    exact processLine_of_marker language buf i p hp (hwin.mpr hw)

/-- Claim C1 witness: the amended equivalence instantiated at a concrete
python buffer whose declaration has a triple-quoted line right above. -/
theorem claim_c1_witness :
    processLine "python".toList
        ["\"\"\" x \"\"\"".toList, "def f():".toList] 1 =
      ["\"\"\" x \"\"\"".toList, "def f():".toList] ↔
      (hasDocMarker
          (lineAt ["\"\"\" x \"\"\"".toList, "def f():".toList] 1) = true ∨
       (1 ≤ 1 ∧ hasDocMarker
          (lineAt ["\"\"\" x \"\"\"".toList, "def f():".toList] (1 - 1)) = true) ∨
       (2 ≤ 1 ∧ hasDocMarker
          (lineAt ["\"\"\" x \"\"\"".toList, "def f():".toList] (1 - 2)) = true)) :=
  claim_c1_amended "python".toList
    ["\"\"\" x \"\"\"".toList, "def f():".toList] 1
    ⟨"function".toList, "f".toList, []⟩ (by decide)

/-- Claim C7: the Insertion Applier inserts exactly the block obtained by
re-indenting the template at the target line's leading whitespace run, and
every physical line of that inserted block begins with that whitespace run.
(The hypothesis records the buffer invariant that a line's text contains no
line break.) -/
theorem claim_c7_reindentation (buf : List Str) (i : Nat) (docstring : Str)
    (hnl : '\n' ∉ lineAt buf i) :
    insertDocstringAtLine buf i docstring =
      buf.take i ++ insertedBlock (leadingIndent (lineAt buf i)) docstring ++
        [lineAt buf i] ++ buf.drop (i + 1) ∧
    ∀ l ∈ insertedBlock (leadingIndent (lineAt buf i)) docstring,
      ∃ rest, l = leadingIndent (lineAt buf i) ++ rest := by
  refine ⟨insertDocstringAtLine_eq buf i docstring, ?_⟩
  intro l hl
  have hind : '\n' ∉ leadingIndent (lineAt buf i) :=
    not_newline_mem_leadingIndent _ hnl
  unfold insertedBlock at hl
  rw [splitOnChar_reindent _ _ hind] at hl
  obtain ⟨x, _, hx⟩ := List.mem_map.mp hl
  exact ⟨x, hx.symm⟩

/-- Claim C7 witness: the re-indentation property instantiated at a
four-space-indented declaration and a two-line template. -/
theorem claim_c7_witness :
    insertDocstringAtLine ["    def f(x):".toList] 0 "a\nb".toList =
      ["    def f(x):".toList].take 0 ++
        insertedBlock (leadingIndent (lineAt ["    def f(x):".toList] 0))
          "a\nb".toList ++
        [lineAt ["    def f(x):".toList] 0] ++
        ["    def f(x):".toList].drop (0 + 1) ∧
    ∀ l ∈ insertedBlock (leadingIndent (lineAt ["    def f(x):".toList] 0))
        "a\nb".toList,
      ∃ rest, l = leadingIndent (lineAt ["    def f(x):".toList] 0) ++ rest :=
  claim_c7_reindentation ["    def f(x):".toList] 0 "a\nb".toList (by decide)

/-- Claim C8: an insertion goes in at column 0 of the target line with one
trailing line break: the buffer grows by the number of newlines in the
rendered, re-indented template plus one; the original target line's content
is unchanged and reappears immediately after the inserted block, shifted
down by exactly that amount; and the lines before and after the target line
are untouched. -/
theorem claim_c8_insertion_shift (buf : List Str) (i : Nat) (docstring : Str)
    (hi : i < buf.length) (hnl : '\n' ∉ lineAt buf i) :
    (insertDocstringAtLine buf i docstring).length =
      buf.length +
        ((replaceNewlines (leadingIndent (lineAt buf i)) docstring).count '\n'
          + 1) ∧
    lineAt (insertDocstringAtLine buf i docstring)
        (i + ((replaceNewlines (leadingIndent (lineAt buf i))
          docstring).count '\n' + 1)) = lineAt buf i ∧
    (insertDocstringAtLine buf i docstring).take i = buf.take i ∧
    (insertDocstringAtLine buf i docstring).drop
        (i + ((replaceNewlines (leadingIndent (lineAt buf i))
          docstring).count '\n' + 1) + 1) = buf.drop (i + 1) := by
  have hind : '\n' ∉ leadingIndent (lineAt buf i) :=
    not_newline_mem_leadingIndent _ hnl
  have hKcount : (insertedBlock (leadingIndent (lineAt buf i)) docstring).length =
      (replaceNewlines (leadingIndent (lineAt buf i)) docstring).count '\n' + 1 := by
    unfold insertedBlock
    rw [length_splitOnChar, List.count_append, List.count_eq_zero.mpr hind]
    simp
  rw [← hKcount]
  have htl : (buf.take i).length = i := by
    rw [List.length_take]
    omega
  have hEq := insertDocstringAtLine_eq buf i docstring
  refine ⟨?_, ?_, ?_, ?_⟩
  · exact length_insertDocstringAtLine buf i docstring hi
  · rw [hEq]
    have hassoc :
        buf.take i ++ insertedBlock (leadingIndent (lineAt buf i)) docstring ++
            [lineAt buf i] ++ buf.drop (i + 1) =
          (buf.take i ++ insertedBlock (leadingIndent (lineAt buf i)) docstring) ++
            ([lineAt buf i] ++ buf.drop (i + 1)) := by
      simp [List.append_assoc]
    rw [hassoc]
    have hplen :
        i + (insertedBlock (leadingIndent (lineAt buf i)) docstring).length =
          (buf.take i ++
            insertedBlock (leadingIndent (lineAt buf i)) docstring).length + 0 := by
      simp [List.length_append, htl]
    rw [hplen, lineAt_append_right]
    rfl
  · rw [hEq]
    have hassoc :
        buf.take i ++ insertedBlock (leadingIndent (lineAt buf i)) docstring ++
            [lineAt buf i] ++ buf.drop (i + 1) =
          buf.take i ++
            (insertedBlock (leadingIndent (lineAt buf i)) docstring ++
              ([lineAt buf i] ++ buf.drop (i + 1))) := by
      simp [List.append_assoc]
    rw [hassoc, List.take_left' htl]
  · rw [hEq]
    have hassoc :
        buf.take i ++ insertedBlock (leadingIndent (lineAt buf i)) docstring ++
            [lineAt buf i] ++ buf.drop (i + 1) =
          (buf.take i ++ insertedBlock (leadingIndent (lineAt buf i)) docstring ++
            [lineAt buf i]) ++ buf.drop (i + 1) := by
      simp [List.append_assoc]
    have hplen :
        (buf.take i ++ insertedBlock (leadingIndent (lineAt buf i)) docstring ++
          [lineAt buf i]).length =
          i + (insertedBlock (leadingIndent (lineAt buf i)) docstring).length + 1 := by
      simp [List.length_append, htl]
      omega
    rw [hassoc, List.drop_left' hplen]

/-- Claim C8 witness: the shift property instantiated at a two-line python
buffer and the template rendered for `def f():`. -/
theorem claim_c8_witness :
    (insertDocstringAtLine ["def f():".toList, "    pass".toList] 0
        (generateDocstring "python".toList "f".toList [])).length =
      ["def f():".toList, "    pass".toList].length +
        ((replaceNewlines
            (leadingIndent (lineAt ["def f():".toList, "    pass".toList] 0))
            (generateDocstring "python".toList "f".toList [])).count '\n' + 1) ∧
    lineAt
        (insertDocstringAtLine ["def f():".toList, "    pass".toList] 0
          (generateDocstring "python".toList "f".toList []))
        (0 + ((replaceNewlines
            (leadingIndent (lineAt ["def f():".toList, "    pass".toList] 0))
            (generateDocstring "python".toList "f".toList [])).count '\n' + 1)) =
      lineAt ["def f():".toList, "    pass".toList] 0 ∧
    (insertDocstringAtLine ["def f():".toList, "    pass".toList] 0
        (generateDocstring "python".toList "f".toList [])).take 0 =
      ["def f():".toList, "    pass".toList].take 0 ∧
    (insertDocstringAtLine ["def f():".toList, "    pass".toList] 0
        (generateDocstring "python".toList "f".toList [])).drop
        (0 + ((replaceNewlines
            (leadingIndent (lineAt ["def f():".toList, "    pass".toList] 0))
            (generateDocstring "python".toList "f".toList [])).count '\n' + 1)
          + 1) =
      ["def f():".toList, "    pass".toList].drop (0 + 1) :=
  claim_c8_insertion_shift ["def f():".toList, "    pass".toList] 0
    (generateDocstring "python".toList "f".toList []) (by decide) (by decide)

/-- The python template always ends in a newline followed by the closing
triple-quote line, whatever the name and parameters are. -/
theorem generateDocstring_python_decomp (name : Str) (params : List Str) :
    ∃ c : Str, generateDocstring "python".toList name params =
      c ++ ('\n' :: "\"\"\"".toList) := by
  unfold generateDocstring
  rw [if_pos rfl]
  rw [show (":return: DESCRIPTION\n\"\"\"".toList : Str) =
      ":return: DESCRIPTION".toList ++ ('\n' :: "\"\"\"".toList) from by decide]
  refine ⟨"\"\"\"".toList ++ name ++ " description.\n\n".toList ++
    joinWith "\n".toList
      (params.map fun p => ":param ".toList ++ p ++ ": DESCRIPTION".toList) ++
    (if params.length = 0 then [] else "\n".toList) ++
    ":return: DESCRIPTION".toList, ?_⟩
  simp [List.append_assoc]

/-- After an insertion, the original target line sits immediately after the
inserted block, at the target index shifted by the block length. -/
theorem lineAt_insert_decl (buf : List Str) (i : Nat) (doc : Str)
    (hi : i < buf.length) :
    lineAt (insertDocstringAtLine buf i doc)
        (i + (insertedBlock (leadingIndent (lineAt buf i)) doc).length) =
      lineAt buf i := by
  rw [insertDocstringAtLine_eq]
  have htl : (buf.take i).length = i := by
    rw [List.length_take]
    omega
  have hassoc :
      buf.take i ++ insertedBlock (leadingIndent (lineAt buf i)) doc ++
          [lineAt buf i] ++ buf.drop (i + 1) =
        (buf.take i ++ insertedBlock (leadingIndent (lineAt buf i)) doc) ++
          ([lineAt buf i] ++ buf.drop (i + 1)) := by
    simp [List.append_assoc]
  rw [hassoc]
  rw [show i + (insertedBlock (leadingIndent (lineAt buf i)) doc).length =
      (buf.take i ++ insertedBlock (leadingIndent (lineAt buf i)) doc).length
        + 0 from by simp [List.length_append, htl]]
  rw [lineAt_append_right]
  rfl

/-- After an insertion whose block ends with line `x`, that line sits at the
index just before the shifted target line. -/
theorem lineAt_insert_block_last (buf : List Str) (i : Nat) (doc : Str)
    (q : List Str) (x : Str) (hi : i < buf.length)
    (hbk : insertedBlock (leadingIndent (lineAt buf i)) doc = q ++ [x]) :
    lineAt (insertDocstringAtLine buf i doc) (i + q.length) = x := by
  rw [insertDocstringAtLine_eq, hbk]
  have htl : (buf.take i).length = i := by
    rw [List.length_take]
    omega
  have hassoc :
      buf.take i ++ (q ++ [x]) ++ [lineAt buf i] ++ buf.drop (i + 1) =
        (buf.take i ++ q) ++
          ([x] ++ ([lineAt buf i] ++ buf.drop (i + 1))) := by
    simp [List.append_assoc]
  rw [hassoc]
  rw [show i + q.length = (buf.take i ++ q).length + 0 from by
    simp [List.length_append, htl]]
  rw [lineAt_append_right]
  rfl

/-- Claim C2 counterexample: on the Family B buffer
`["function add(a, b) \x7b", "\x7d"]` the first run inserts a six-line block whose
`/**` opener ends up six lines above the declaration — outside the two-line
check window — so the second run inserts the block again: two runs are not
idempotent. -/
theorem claim_c2_counterexample :
    generateDocstringsForFile "javascript".toList
        (generateDocstringsForFile "javascript".toList
          ["function add(a, b) \x7b".toList, "\x7d".toList]) ≠
      generateDocstringsForFile "javascript".toList
        ["function add(a, b) \x7b".toList, "\x7d".toList] := by
  decide

/-- Claim C2 (amended): a Family A declaration that receives an inserted doc
block is protected against re-insertion: its text reappears unchanged just
below the block, the block's closing triple-quote line lands immediately
above it, the marker check fires at its shifted index, and processing that
index again leaves the buffer unchanged.  Two-run idempotence of the whole
file run fails in general: Family B blocks leave the `/**` opener outside
the two-line window (see the counterexample), and the first run's line-count
snapshot can leave trailing declarations of either family unprocessed until
a later run. -/
theorem claim_c2_amended (buf : List Str) (i : Nat) (p : Parsed)
    (hnl : '\n' ∉ lineAt buf i)
    (hp : parseFunctionOrClass (lineAt buf i) "python".toList = some p)
    (hm : hasDocstring buf i = false) :
    lineAt (processLine "python".toList buf i)
        (i + ((processLine "python".toList buf i).length - buf.length)) =
      lineAt buf i ∧
    hasDocstring (processLine "python".toList buf i)
        (i + ((processLine "python".toList buf i).length - buf.length)) =
      true ∧
    processLine "python".toList (processLine "python".toList buf i)
        (i + ((processLine "python".toList buf i).length - buf.length)) =
      processLine "python".toList buf i := by
  have hi : i < buf.length := lt_length_of_parse_some buf i _ p hp
  have hind : '\n' ∉ leadingIndent (lineAt buf i) :=
    not_newline_mem_leadingIndent _ hnl
  have hPL := processLine_of_insert "python".toList buf i p hp hm
  rw [hPL]
  obtain ⟨c, hc⟩ := generateDocstring_python_decomp p.name p.params
  have hsplitD :
      splitOnChar '\n' (generateDocstring "python".toList p.name p.params) =
        splitOnChar '\n' c ++ ["\"\"\"".toList] := by
    rw [hc, splitOnChar_append_cons,
      splitOnChar_of_not_mem '\n' "\"\"\"".toList (by decide)]
  have hblock :
      insertedBlock (leadingIndent (lineAt buf i))
          (generateDocstring "python".toList p.name p.params) =
        (splitOnChar '\n' c).map (fun l => leadingIndent (lineAt buf i) ++ l)
          ++ [leadingIndent (lineAt buf i) ++ "\"\"\"".toList] := by
    unfold insertedBlock
    rw [splitOnChar_reindent _ _ hind, hsplitD, List.map_append]
    rfl
  have hlen := length_insertDocstringAtLine buf i
    (generateDocstring "python".toList p.name p.params) hi
  have hdelta :
      (insertDocstringAtLine buf i
          (generateDocstring "python".toList p.name p.params)).length -
        buf.length =
      (insertedBlock (leadingIndent (lineAt buf i))
        (generateDocstring "python".toList p.name p.params)).length := by
    omega
  rw [hdelta]
  have hQK :
      (insertedBlock (leadingIndent (lineAt buf i))
          (generateDocstring "python".toList p.name p.params)).length =
        ((splitOnChar '\n' c).map
          (fun l => leadingIndent (lineAt buf i) ++ l)).length + 1 := by
    rw [hblock]
    simp
  have h1 := lineAt_insert_decl buf i
    (generateDocstring "python".toList p.name p.params) hi
  have hmarkline :
      lineAt (insertDocstringAtLine buf i
          (generateDocstring "python".toList p.name p.params))
        (i + (insertedBlock (leadingIndent (lineAt buf i))
          (generateDocstring "python".toList p.name p.params)).length - 1) =
      leadingIndent (lineAt buf i) ++ "\"\"\"".toList := by
    rw [show i + (insertedBlock (leadingIndent (lineAt buf i))
        (generateDocstring "python".toList p.name p.params)).length - 1 =
      i + ((splitOnChar '\n' c).map
        (fun l => leadingIndent (lineAt buf i) ++ l)).length from by omega]
    exact lineAt_insert_block_last buf i
      (generateDocstring "python".toList p.name p.params) _ _ hi hblock
  have hmarker :
      hasDocMarker (leadingIndent (lineAt buf i) ++ "\"\"\"".toList) = true := by
    unfold hasDocMarker
    have hcs := containsSub_of_decomp "\"\"\"".toList
      (leadingIndent (lineAt buf i)) []
    rw [List.append_nil] at hcs
    rw [hcs]
    simp
  have h2 :
      hasDocstring (insertDocstringAtLine buf i
          (generateDocstring "python".toList p.name p.params))
        (i + (insertedBlock (leadingIndent (lineAt buf i))
          (generateDocstring "python".toList p.name p.params)).length) =
      true := by
    rw [hasDocstring_eq_window]
    have hle : 1 ≤ i + (insertedBlock (leadingIndent (lineAt buf i))
        (generateDocstring "python".toList p.name p.params)).length := by
      omega
    rw [hmarkline, hmarker, decide_eq_true hle]
    simp
  refine ⟨h1, h2, ?_⟩
  apply processLine_of_marker "python".toList _ _ p
  · rw [h1]
    exact hp
  · exact h2

/-- Claim C2 witness: the amended claim instantiated at the one-line python
buffer `["def f():"]`. -/
theorem claim_c2_witness :
    lineAt (processLine "python".toList ["def f():".toList] 0)
        (0 + ((processLine "python".toList ["def f():".toList] 0).length -
          ["def f():".toList].length)) =
      lineAt ["def f():".toList] 0 ∧
    hasDocstring (processLine "python".toList ["def f():".toList] 0)
        (0 + ((processLine "python".toList ["def f():".toList] 0).length -
          ["def f():".toList].length)) = true ∧
    processLine "python".toList
        (processLine "python".toList ["def f():".toList] 0)
        (0 + ((processLine "python".toList ["def f():".toList] 0).length -
          ["def f():".toList].length)) =
      processLine "python".toList ["def f():".toList] 0 :=
  claim_c2_amended ["def f():".toList] 0 ⟨"function".toList, "f".toList, []⟩
    (by decide) (by decide) (by decide)
